import Mathlib

/-!
Shallow embedding of the buffer-composition engine of
`libs/image/src/ImageOps.cpp` (C++ `namespace image`), together with
theorems settling the behavioural claims about it.

Modelling conventions:

* Pixel components (C++ `float`) are modelled as rationals `ℚ`; every
  component operation the engine performs (copying, `0.5f * (v + 1)`,
  epsilon comparisons) is expressed exactly over `ℚ`.
* The `LinearImage` buffer class itself is declared outside the sources
  under verification, so it is modelled from the spec (§3): `width`,
  `height`, `channels`, and a row-major component store in which component
  `(row, col, k)` lives at linear offset `(row * width + col) * channels + k`.
  The store is modelled as a total function `ℕ → ℚ`; only offsets below
  `width * height * channels` are meaningful.
* C++ `uint32_t` dimension arithmetic is modelled over `ℕ`.  The one place
  where 32-bit wraparound is observable for representable inputs — the
  unchecked bound subtractions in `cropRegion` — is modelled with an
  explicit `% 2 ^ 32` (`right - left` on `uint32_t` operands below `2 ^ 32`
  equals `(2 ^ 32 + right - left) % 2 ^ 32`).
* `ASSERT_PRECONDITION` failures are modelled by `Except String`, carrying
  the exact diagnostic message of the source.
* `memcpy` of `len` floats, and the component-copy loops, are modelled by
  `copyLoop`, a left fold of single-component writes.
-/

namespace image

/-- Modelled from the spec: the linear image buffer (§3) — the
`LinearImage` class is declared outside the source files under
verification.  `width`, `height`, `channels` plus an owned store of
`width * height * channels` components, modelled as a total function on
linear offsets. -/
structure LinearImage where
  width : ℕ
  height : ℕ
  channels : ℕ
  data : ℕ → ℚ

instance : Inhabited LinearImage := ⟨⟨0, 0, 0, fun _ => 0⟩⟩

/-- Modelled from the spec: the row-major layout invariant (§3) — the
component of pixel `(row, col)` in channel `k` sits at linear offset
`(row * width + col) * channels + k`. -/
def LinearImage.pixelAt (img : LinearImage) (row col k : ℕ) : ℚ :=
  img.data ((row * img.width + col) * img.channels + k)

/-- Model of copying `len` consecutive components from `src` (starting at
`srcOff`) into a destination store (starting at `dstOff`): this is both
`memcpy` of `len` floats and the explicit per-component copy loops of the
source. -/
def copyLoop (tgt : ℕ → ℚ) (dstOff : ℕ) (src : ℕ → ℚ) (srcOff len : ℕ) : ℕ → ℚ :=
  (List.range len).foldl (fun t m => Function.update t (dstOff + m) (src (srcOff + m))) tgt

lemma copyLoop_succ (tgt : ℕ → ℚ) (dstOff : ℕ) (src : ℕ → ℚ) (srcOff len : ℕ) :
    copyLoop tgt dstOff src srcOff (len + 1)
      = Function.update (copyLoop tgt dstOff src srcOff len) (dstOff + len) (src (srcOff + len)) := by
  unfold copyLoop
  rw [List.range_succ, List.foldl_append, List.foldl_cons, List.foldl_nil]

lemma copyLoop_eval_in (tgt : ℕ → ℚ) (dstOff : ℕ) (src : ℕ → ℚ) (srcOff : ℕ) :
    ∀ len m : ℕ, m < len →
      copyLoop tgt dstOff src srcOff len (dstOff + m) = src (srcOff + m) := by
  intro len
  induction len with
  | zero => intro m hm; exact absurd hm (Nat.not_lt_zero m)
  | succ n ih =>
    intro m hm
    rw [copyLoop_succ]
    rcases Nat.lt_succ_iff_lt_or_eq.mp hm with h | h
    · rw [Function.update_noteq (by omega)]
      exact ih m h
    · subst h
      rw [Function.update_same]

lemma copyLoop_eval_out (tgt : ℕ → ℚ) (dstOff : ℕ) (src : ℕ → ℚ) (srcOff : ℕ) :
    ∀ len k : ℕ, (k < dstOff ∨ dstOff + len ≤ k) →
      copyLoop tgt dstOff src srcOff len k = tgt k := by
  intro len
  induction len with
  | zero => intro k _; rfl
  | succ n ih =>
    intro k hk
    rw [copyLoop_succ]
    rw [Function.update_noteq (by omega)]
    exact ih k (by omega)

/-- A fold of `copyLoop`s leaves every offset outside all the written
blocks unchanged. -/
lemma foldl_copyLoop_frame (src : ℕ → ℚ) (base srcOff : ℕ → ℕ) (len : ℕ) :
    ∀ (L : List ℕ) (tgt : ℕ → ℚ) (k : ℕ),
      (∀ n ∈ L, k < base n ∨ base n + len ≤ k) →
      L.foldl (fun t n => copyLoop t (base n) src (srcOff n) len) tgt k = tgt k := by
  intro L
  induction L with
  | nil => intro tgt k _; rfl
  | cons n L ih =>
    intro tgt k hk
    rw [List.foldl_cons]
    rw [ih _ k fun n' hn' => hk n' (List.mem_cons_of_mem _ hn')]
    exact copyLoop_eval_out tgt (base n) src (srcOff n) len k (hk n (List.mem_cons_self _ _))

/-- A fold of `copyLoop`s evaluates, at an offset covered by the block of
step `n0` and by no other step's block, to the component written by step
`n0`. -/
lemma foldl_copyLoop_eval (src : ℕ → ℚ) (base srcOff : ℕ → ℕ) (len : ℕ) :
    ∀ (L : List ℕ) (tgt : ℕ → ℚ) (n0 m : ℕ), n0 ∈ L → m < len →
      (∀ n ∈ L, n ≠ n0 → base n + len ≤ base n0 + m ∨ base n0 + m < base n) →
      L.foldl (fun t n => copyLoop t (base n) src (srcOff n) len) tgt (base n0 + m)
        = src (srcOff n0 + m) := by
  intro L
  induction L with
  | nil => intro tgt n0 m h _ _; exact absurd h (List.not_mem_nil n0)
  | cons n L ih =>
    intro tgt n0 m hn0 hm hsep
    rw [List.foldl_cons]
    by_cases hmem : n0 ∈ L
    · exact ih _ n0 m hmem hm fun n' hn' hne => hsep n' (List.mem_cons_of_mem _ hn') hne
    · have hn : n = n0 := by
        rcases List.mem_cons.mp hn0 with h | h
        · exact h.symm
        · exact absurd h hmem
      subst hn
      have hframe : ∀ n' ∈ L, base n + m < base n' ∨ base n' + len ≤ base n + m := by
        intro n' hn'
        have hne : n' ≠ n := fun h => hmem (h ▸ hn')
        have h2 := hsep n' (List.mem_cons_of_mem _ hn') hne
        omega
      rw [foldl_copyLoop_frame src base srcOff len L _ _ hframe]
      exact copyLoop_eval_in tgt (base n) src (srcOff n) len m hm

/-- Euclidean uniqueness for the flattened row/column encoding. -/
lemma rowcol_inj {H i i' j j' : ℕ} (hi : i < H) (hi' : i' < H)
    (h : H * j + i = H * j' + i') : j = j' ∧ i = i' := by
  have hH : 0 < H := Nat.lt_of_le_of_lt (Nat.zero_le i) hi
  have e1 : (H * j + i) / H = j := by
    rw [Nat.mul_add_div hH, Nat.div_eq_of_lt hi, Nat.add_zero]
  have e2 : (H * j' + i') / H = j' := by
    rw [Nat.mul_add_div hH, Nat.div_eq_of_lt hi', Nat.add_zero]
  have e3 : (H * j + i) % H = i := by
    rw [Nat.mul_add_mod, Nat.mod_eq_of_lt hi]
  have e4 : (H * j' + i') % H = i' := by
    rw [Nat.mul_add_mod, Nat.mod_eq_of_lt hi']
  constructor
  · rw [← e1, ← e2, h]
  · rw [← e3, ← e4, h]

/-- `transpose` (ImageOps.cpp:136-153): allocates a `height × width`
result and moves pixel `n = i * width + j` of the source (with
`i = n / width`, `j = n % width`) to destination offset
`channels * (height * j + i)`, one component at a time. -/
def transpose (image : LinearImage) : LinearImage :=
  let width := image.width
  let height := image.height
  let channels := image.channels
  let target := (List.range (width * height)).foldl
    (fun tgt n =>
      copyLoop tgt (channels * (height * (n % width) + n / width)) image.data (channels * n) channels)
    (fun _ => (0 : ℚ))
  ⟨height, width, channels, target⟩

lemma transpose_width (img : LinearImage) : (transpose img).width = img.height := rfl

lemma transpose_height (img : LinearImage) : (transpose img).height = img.width := rfl

lemma transpose_channels (img : LinearImage) : (transpose img).channels = img.channels := rfl

lemma transpose_data_eval (img : LinearImage) (i j k : ℕ)
    (hi : i < img.height) (hj : j < img.width) (hk : k < img.channels) :
    (transpose img).data (img.channels * (img.height * j + i) + k)
      = img.data (img.channels * (i * img.width + j) + k) := by
  have hW : 0 < img.width := Nat.lt_of_le_of_lt (Nat.zero_le j) hj
  have hmod : (i * img.width + j) % img.width = j := by
    rw [Nat.mul_comm i img.width, Nat.mul_add_mod, Nat.mod_eq_of_lt hj]
  have hdiv : (i * img.width + j) / img.width = i := by
    rw [Nat.mul_comm i img.width, Nat.mul_add_div hW, Nat.div_eq_of_lt hj, Nat.add_zero]
  have hgoal : img.channels * (img.height * j + i) + k
      = img.channels * (img.height * ((i * img.width + j) % img.width)
          + (i * img.width + j) / img.width) + k := by
    rw [hmod, hdiv]
  show (List.range (img.width * img.height)).foldl
      (fun tgt n =>
        copyLoop tgt (img.channels * (img.height * (n % img.width) + n / img.width))
          img.data (img.channels * n) img.channels)
      (fun _ => (0 : ℚ)) (img.channels * (img.height * j + i) + k)
      = img.data (img.channels * (i * img.width + j) + k)
  rw [hgoal]
  exact foldl_copyLoop_eval img.data
    (fun n => img.channels * (img.height * (n % img.width) + n / img.width))
    (fun n => img.channels * n) img.channels
    (List.range (img.width * img.height)) (fun _ => (0 : ℚ)) (i * img.width + j) k
    (by
      apply List.mem_range.mpr
      calc i * img.width + j < (i + 1) * img.width := by rw [Nat.succ_mul]; omega
        _ ≤ img.height * img.width := Nat.mul_le_mul_right img.width hi
        _ = img.width * img.height := Nat.mul_comm _ _)
    hk
    (by
      intro n hn hne
      have hnW : n < img.width * img.height := List.mem_range.mp hn
      have hi' : n / img.width < img.height := by
        rw [Nat.div_lt_iff_lt_mul hW]
        rw [Nat.mul_comm img.width img.height] at hnW
        exact hnW
      have hj' : n % img.width < img.width := Nat.mod_lt n hW
      have hpne : img.height * (n % img.width) + n / img.width ≠ img.height * j + i := by
        intro heq
        obtain ⟨hjc, hic⟩ := rowcol_inj hi' hi heq
        apply hne
        have hdm := Nat.div_add_mod n img.width
        rw [hic, hjc] at hdm
        rw [← hdm, Nat.mul_comm]
      simp only [hmod, hdiv]
      rcases Nat.lt_or_ge (img.height * (n % img.width) + n / img.width) (img.height * j + i)
        with hlt | hge
      · left
        have h1 : img.channels * ((img.height * (n % img.width) + n / img.width) + 1)
            ≤ img.channels * (img.height * j + i) := mul_le_mul_left' hlt img.channels
        rw [Nat.mul_succ] at h1
        exact le_trans h1 (Nat.le_add_right _ k)
      · right
        have hplt : img.height * j + i < img.height * (n % img.width) + n / img.width :=
          Nat.lt_of_le_of_ne hge hpne.symm
        have h1 : img.channels * (img.height * j + i) + k
            < img.channels * ((img.height * j + i) + 1) := by
          rw [Nat.mul_succ]
          exact Nat.add_lt_add_left hk _
        have h2 : img.channels * ((img.height * j + i) + 1)
            ≤ img.channels * (img.height * (n % img.width) + n / img.width) :=
          mul_le_mul_left' hplt img.channels
        exact Nat.lt_of_lt_of_le h1 h2)

/-- Pixel-level reading of `transpose`: output pixel `(row = j, col = i)`
equals input pixel `(row = i, col = j)` in every channel. -/
lemma transpose_pixelAt (img : LinearImage) (i j k : ℕ)
    (hi : i < img.height) (hj : j < img.width) (hk : k < img.channels) :
    (transpose img).pixelAt j i k = img.pixelAt i j k := by
  simp only [LinearImage.pixelAt, transpose_width, transpose_channels]
  have h1 : (j * img.height + i) * img.channels + k
      = img.channels * (img.height * j + i) + k := by ring
  have h2 : (i * img.width + j) * img.channels + k
      = img.channels * (i * img.width + j) + k := by ring
  rw [h1, h2]
  exact transpose_data_eval img i j k hi hj hk

/-- Sum of the widths of a sequence of images (the `width` accumulator of
`hstack`'s scan). -/
def sumWidths : List LinearImage → ℕ
  | [] => 0
  | img :: rest => img.width + sumWidths rest

/-- Sum of the heights of a sequence of images. -/
def sumHeights : List LinearImage → ℕ
  | [] => 0
  | img :: rest => img.height + sumHeights rest

/-- Number of components one output row receives from the images of `l`
during `hstack` (each image contributes `swidth * nchannels`). -/
def rowBytes (nch : ℕ) : List LinearImage → ℕ
  | [] => 0
  | img :: rest => img.width * nch + rowBytes nch rest

lemma rowBytes_eq (nch : ℕ) : ∀ l : List LinearImage, rowBytes nch l = sumWidths l * nch := by
  intro l
  induction l with
  | nil => simp [rowBytes, sumWidths]
  | cons img rest ih =>
    show img.width * nch + rowBytes nch rest = (img.width + sumWidths rest) * nch
    rw [ih, Nat.add_mul]

/-- The dimension scan of `hstack` (ImageOps.cpp:50-66): accumulates the
total width and checks height and channel consistency, with the first
image seeding the zero-initialised `height`/`nchannels` accumulators.  In
the non-failing branches the accumulator keeps the value
`img.getHeight()` / `img.getChannels()` of the image just visited. -/
def hstackScan : List LinearImage → ℕ → ℕ → ℕ → Except String (ℕ × ℕ × ℕ)
  | [], width, height, nchannels => .ok (width, height, nchannels)
  | img :: rest, width, height, nchannels =>
    if height = 0 ∨ height = img.height then
      if nchannels = 0 ∨ nchannels = img.channels then
        hstackScan rest (width + img.width) img.height img.channels
      else .error "Inconsistent channels."
    else .error "Inconsistent heights."

/-- One output row of `hstack` (ImageOps.cpp:71-79): for each source image
in order, one `memcpy` of `swidth * nchannels` components taken from that
image's row `row` (source offset `row * swidth * nchannels`), each copy
advancing the destination cursor by `swidth * nchannels`. -/
def hstackRowFold (l : List LinearImage) (nch row : ℕ) (st : ℕ × (ℕ → ℚ)) : ℕ × (ℕ → ℚ) :=
  l.foldl (fun st img =>
    (st.1 + img.width * nch,
     copyLoop st.2 st.1 img.data (row * (img.width * nch)) (img.width * nch))) st

/-- The full destination store of `hstack`: the row loop of
ImageOps.cpp:71-79, starting from cursor `0` over a fresh allocation. -/
def hstackData (l : List LinearImage) (nch height : ℕ) : ℕ → ℚ :=
  ((List.range height).foldl (fun st row => hstackRowFold l nch row st) (0, fun _ => (0 : ℚ))).2

/-- `hstack` (ImageOps.cpp:46-81). -/
def hstack (l : List LinearImage) : Except String LinearImage :=
  if l.length > 0 then
    match hstackScan l 0 0 0 with
    | .error e => .error e
    | .ok (width, height, nchannels) =>
      .ok ⟨width, height, nchannels, hstackData l nchannels height⟩
  else .error "Must supply one or more images for stacking."

/-- `vstack` (ImageOps.cpp:91-100): transpose every input, `hstack` the
transposed images, transpose the result. -/
def vstack (l : List LinearImage) : Except String LinearImage :=
  if l.length > 0 then
    match hstack (l.map transpose) with
    | .error e => .error e
    | .ok result => .ok (transpose result)
  else .error "Must supply one or more images for stacking."

/-- The component an `hstack` output row holds at row-offset `j`: drawn
from the first image whose row slice covers `j`. -/
def rowVal (nch row : ℕ) : List LinearImage → ℕ → ℚ
  | [], _ => 0
  | img :: rest, j =>
    if j < img.width * nch then img.data (row * (img.width * nch) + j)
    else rowVal nch row rest (j - img.width * nch)

lemma hstackRowFold_fst (nch row : ℕ) :
    ∀ (l : List LinearImage) (st : ℕ × (ℕ → ℚ)),
      (hstackRowFold l nch row st).1 = st.1 + rowBytes nch l := by
  intro l
  induction l with
  | nil => intro st; simp [hstackRowFold, rowBytes]
  | cons img rest ih =>
    intro st
    show (hstackRowFold rest nch row
        (st.1 + img.width * nch,
         copyLoop st.2 st.1 img.data (row * (img.width * nch)) (img.width * nch))).1
      = st.1 + rowBytes nch (img :: rest)
    rw [ih]
    show st.1 + img.width * nch + rowBytes nch rest
      = st.1 + (img.width * nch + rowBytes nch rest)
    omega

lemma hstackRowFold_snd (nch row : ℕ) :
    ∀ (l : List LinearImage) (st : ℕ × (ℕ → ℚ)) (k : ℕ),
      (hstackRowFold l nch row st).2 k
        = if st.1 ≤ k ∧ k < st.1 + rowBytes nch l
          then rowVal nch row l (k - st.1) else st.2 k := by
  intro l
  induction l with
  | nil =>
    intro st k
    show st.2 k = if st.1 ≤ k ∧ k < st.1 + rowBytes nch [] then _ else st.2 k
    rw [if_neg (by show ¬(st.1 ≤ k ∧ k < st.1 + 0); omega)]
  | cons img rest ih =>
    intro st k
    have hstep : hstackRowFold (img :: rest) nch row st
        = hstackRowFold rest nch row
            (st.1 + img.width * nch,
             copyLoop st.2 st.1 img.data (row * (img.width * nch)) (img.width * nch)) := rfl
    rw [hstep, ih]
    have hcons : rowBytes nch (img :: rest) = img.width * nch + rowBytes nch rest := rfl
    by_cases h1 : st.1 + img.width * nch ≤ k ∧ k < st.1 + img.width * nch + rowBytes nch rest
    · rw [if_pos h1, if_pos (by rw [hcons]; omega)]
      show rowVal nch row rest (k - (st.1 + img.width * nch)) = rowVal nch row (img :: rest) (k - st.1)
      have hunf : rowVal nch row (img :: rest) (k - st.1)
          = if k - st.1 < img.width * nch
            then img.data (row * (img.width * nch) + (k - st.1))
            else rowVal nch row rest (k - st.1 - (img.width * nch)) := rfl
      rw [hunf, if_neg (by omega)]
      congr 1
      omega
    · rw [if_neg h1]
      by_cases h2 : st.1 ≤ k ∧ k < st.1 + img.width * nch
      · obtain ⟨m, rfl⟩ : ∃ m, k = st.1 + m := ⟨k - st.1, by omega⟩
        have hm : m < img.width * nch := by omega
        show copyLoop st.2 st.1 img.data (row * (img.width * nch)) (img.width * nch) (st.1 + m)
          = if st.1 ≤ st.1 + m ∧ st.1 + m < st.1 + rowBytes nch (img :: rest)
            then rowVal nch row (img :: rest) (st.1 + m - st.1) else st.2 (st.1 + m)
        rw [copyLoop_eval_in st.2 st.1 img.data (row * (img.width * nch)) (img.width * nch) m hm]
        rw [if_pos (by rw [hcons]; omega)]
        have hunf : rowVal nch row (img :: rest) (st.1 + m - st.1)
            = if st.1 + m - st.1 < img.width * nch
              then img.data (row * (img.width * nch) + (st.1 + m - st.1))
              else rowVal nch row rest (st.1 + m - st.1 - (img.width * nch)) := rfl
        rw [hunf, if_pos (by omega)]
        congr 1
        omega
      · show copyLoop st.2 st.1 img.data (row * (img.width * nch)) (img.width * nch) k
          = if st.1 ≤ k ∧ k < st.1 + rowBytes nch (img :: rest)
            then rowVal nch row (img :: rest) (k - st.1) else st.2 k
        rw [copyLoop_eval_out st.2 st.1 img.data (row * (img.width * nch))
            (img.width * nch) k (by omega)]
        rw [if_neg (by rw [hcons]; omega)]

lemma hstackRows_fst (l : List LinearImage) (nch : ℕ) :
    ∀ (L : List ℕ) (st : ℕ × (ℕ → ℚ)),
      (L.foldl (fun st row => hstackRowFold l nch row st) st).1
        = st.1 + L.length * rowBytes nch l := by
  intro L
  induction L with
  | nil => intro st; simp
  | cons r L ih =>
    intro st
    rw [List.foldl_cons, ih, hstackRowFold_fst]
    show st.1 + rowBytes nch l + L.length * rowBytes nch l
      = st.1 + (L.length + 1) * rowBytes nch l
    rw [Nat.add_mul, Nat.one_mul]
    omega

lemma hstackData_eval (l : List LinearImage) (nch : ℕ) :
    ∀ height row j : ℕ, row < height → j < rowBytes nch l →
      hstackData l nch height (row * rowBytes nch l + j) = rowVal nch row l j := by
  intro height
  induction height with
  | zero => intro row j h _; exact absurd h (Nat.not_lt_zero row)
  | succ h ih =>
    intro row j hrow hj
    show ((List.range (h + 1)).foldl (fun st row => hstackRowFold l nch row st)
        (0, fun _ => (0 : ℚ))).2 (row * rowBytes nch l + j) = rowVal nch row l j
    rw [List.range_succ, List.foldl_append, List.foldl_cons, List.foldl_nil]
    have hS1 : ((List.range h).foldl (fun st row => hstackRowFold l nch row st)
        (0, fun _ => (0 : ℚ))).1 = h * rowBytes nch l := by
      rw [hstackRows_fst]
      simp
    rw [hstackRowFold_snd, hS1]
    rcases Nat.lt_succ_iff_lt_or_eq.mp hrow with hr | hr
    · rw [if_neg (by
        intro hcc
        have hb : (row + 1) * rowBytes nch l ≤ h * rowBytes nch l :=
          mul_le_mul_right' (by omega) _
        rw [Nat.add_mul, Nat.one_mul] at hb
        omega)]
      exact ih row j hr hj
    · subst hr
      rw [if_pos (by omega)]
      congr 1
      omega

/-- Reading `rowVal` inside the slice of a designated image of the
sequence. -/
lemma rowVal_pre (nch row : ℕ) :
    ∀ (pre : List LinearImage) (img : LinearImage) (post : List LinearImage) (col k : ℕ),
      col < img.width → k < nch →
      rowVal nch row (pre ++ img :: post) (rowBytes nch pre + (col * nch + k))
        = img.data (row * (img.width * nch) + (col * nch + k)) := by
  intro pre
  induction pre with
  | nil =>
    intro img post col k hcol hk
    have hlt : col * nch + k < img.width * nch := by
      calc col * nch + k < col * nch + nch := by omega
        _ = (col + 1) * nch := by rw [Nat.add_mul, Nat.one_mul]
        _ ≤ img.width * nch := mul_le_mul_right' (by omega) nch
    show (if (0 : ℕ) + (col * nch + k) < img.width * nch
        then img.data (row * (img.width * nch) + (0 + (col * nch + k)))
        else rowVal nch row post (0 + (col * nch + k) - (img.width * nch)))
      = img.data (row * (img.width * nch) + (col * nch + k))
    rw [if_pos (by omega)]
    congr 1
    omega
  | cons q pre ih =>
    intro img post col k hcol hk
    have hunf : rowVal nch row ((q :: pre) ++ img :: post)
          (rowBytes nch (q :: pre) + (col * nch + k))
        = if rowBytes nch (q :: pre) + (col * nch + k) < q.width * nch
          then q.data (row * (q.width * nch) + (rowBytes nch (q :: pre) + (col * nch + k)))
          else rowVal nch row (pre ++ img :: post)
            (rowBytes nch (q :: pre) + (col * nch + k) - (q.width * nch)) := rfl
    have hcons : rowBytes nch (q :: pre) = q.width * nch + rowBytes nch pre := rfl
    rw [hunf, if_neg (by rw [hcons]; omega)]
    rw [show rowBytes nch (q :: pre) + (col * nch + k) - (q.width * nch)
        = rowBytes nch pre + (col * nch + k) from by rw [hcons]; omega]
    exact ih img post col k hcol hk

/-- The scan succeeds from an agreeing accumulator and accumulates the
widths. -/
lemma hstackScan_agree (h c : ℕ) :
    ∀ (l : List LinearImage) (w0 : ℕ),
      (∀ img ∈ l, img.height = h ∧ img.channels = c) →
      hstackScan l w0 h c = Except.ok (w0 + sumWidths l, h, c) := by
  intro l
  induction l with
  | nil =>
    intro w0 _
    show Except.ok (w0, h, c) = Except.ok (w0 + sumWidths [], h, c)
    rw [show sumWidths [] = 0 from rfl, Nat.add_zero]
  | cons img rest ih =>
    intro w0 hall
    obtain ⟨hh, hc⟩ := hall img (List.mem_cons_self _ _)
    show (if h = 0 ∨ h = img.height then _ else _) = _
    rw [if_pos (Or.inr hh.symm), if_pos (Or.inr hc.symm), hh, hc]
    rw [ih (w0 + img.width) fun i hi => hall i (List.mem_cons_of_mem _ hi)]
    show Except.ok (w0 + img.width + sumWidths rest, h, c)
      = Except.ok (w0 + (img.width + sumWidths rest), h, c)
    rw [Nat.add_assoc]

/-- The scan fails on the first image disagreeing with a nonzero
accumulator, with one of the two shape diagnostics. -/
lemma hstackScan_mismatch (h c : ℕ) (hh : h ≠ 0) (hc : c ≠ 0) :
    ∀ (l : List LinearImage) (w0 : ℕ),
      (∃ img ∈ l, img.height ≠ h ∨ img.channels ≠ c) →
      hstackScan l w0 h c = Except.error "Inconsistent heights."
        ∨ hstackScan l w0 h c = Except.error "Inconsistent channels." := by
  intro l
  induction l with
  | nil => intro w0 hex; obtain ⟨img, him, _⟩ := hex; exact absurd him (List.not_mem_nil img)
  | cons img rest ih =>
    intro w0 hex
    by_cases h1 : img.height = h
    · by_cases h2 : img.channels = c
      · have hrest : ∃ i ∈ rest, i.height ≠ h ∨ i.channels ≠ c := by
          obtain ⟨i, hi, hbad⟩ := hex
          rcases List.mem_cons.mp hi with rfl | hi'
          · rcases hbad with hb | hb
            · exact absurd h1 hb
            · exact absurd h2 hb
          · exact ⟨i, hi', hbad⟩
        show (if h = 0 ∨ h = img.height then _ else _) = _ ∨ (if h = 0 ∨ h = img.height then _ else _) = _
        rw [if_pos (Or.inr h1.symm), if_pos (Or.inr h2.symm), h1, h2]
        exact ih (w0 + img.width) hrest
      · show (if h = 0 ∨ h = img.height then _ else _) = _ ∨ (if h = 0 ∨ h = img.height then _ else _) = _
        rw [if_pos (Or.inr h1.symm)]
        rw [if_neg (by omega)]
        right
        rfl
    · show (if h = 0 ∨ h = img.height then _ else _) = _ ∨ (if h = 0 ∨ h = img.height then _ else _) = _
      rw [if_neg (by
        intro hd
        rcases hd with hd | hd
        · exact hh hd
        · exact h1 hd.symm)]
      left
      rfl

lemma rowBytes_append (nch : ℕ) :
    ∀ l1 l2 : List LinearImage, rowBytes nch (l1 ++ l2) = rowBytes nch l1 + rowBytes nch l2 := by
  intro l1 l2
  induction l1 with
  | nil => simp [rowBytes]
  | cons img rest ih =>
    show img.width * nch + rowBytes nch (rest ++ l2)
      = img.width * nch + rowBytes nch rest + rowBytes nch l2
    rw [ih, Nat.add_assoc]

/-- A successful `hstack` over agreeing inputs: the scan passes and the
result buffer is `⟨Σ widths, h, c⟩` filled by the row loop. -/
lemma hstack_spec (img0 : LinearImage) (rest : List LinearImage) (h c : ℕ)
    (hall : ∀ img ∈ img0 :: rest, img.height = h ∧ img.channels = c) :
    hstack (img0 :: rest)
      = Except.ok ⟨sumWidths (img0 :: rest), h, c, hstackData (img0 :: rest) c h⟩ := by
  obtain ⟨hh0, hc0⟩ := hall img0 (List.mem_cons_self _ _)
  have hscan : hstackScan (img0 :: rest) 0 0 0
      = Except.ok (sumWidths (img0 :: rest), h, c) := by
    show (if (0 : ℕ) = 0 ∨ (0 : ℕ) = img0.height then
        if (0 : ℕ) = 0 ∨ (0 : ℕ) = img0.channels then
          hstackScan rest (0 + img0.width) img0.height img0.channels
        else Except.error "Inconsistent channels."
      else Except.error "Inconsistent heights.") = _
    rw [if_pos (Or.inl rfl), if_pos (Or.inl rfl), hh0, hc0]
    rw [hstackScan_agree h c rest (0 + img0.width) fun i hi => hall i (List.mem_cons_of_mem _ hi)]
    rw [Nat.zero_add]
    rfl
  show (if (img0 :: rest).length > 0 then _ else _) = _
  rw [if_pos (by simp)]
  rw [hscan]

/-- Reading a pixel of the `hstack` result store inside the slice
contributed by a designated input image. -/
lemma hstackData_pixel (l : List LinearImage) (c h : ℕ)
    (hall : ∀ img ∈ l, img.height = h ∧ img.channels = c)
    (pre : List LinearImage) (img : LinearImage) (post : List LinearImage)
    (hsplit : l = pre ++ img :: post)
    (row col k : ℕ) (hrow : row < h) (hcol : col < img.width) (hk : k < c) :
    hstackData l c h ((row * sumWidths l + (sumWidths pre + col)) * c + k)
      = img.pixelAt row col k := by
  subst hsplit
  have himg : img.height = h ∧ img.channels = c :=
    hall img (List.mem_append.mpr (Or.inr (List.mem_cons_self _ _)))
  have hidx : (row * sumWidths (pre ++ img :: post) + (sumWidths pre + col)) * c + k
      = row * rowBytes c (pre ++ img :: post) + (rowBytes c pre + (col * c + k)) := by
    rw [rowBytes_eq, rowBytes_eq]
    ring
  rw [hidx]
  have hsum : rowBytes c (pre ++ img :: post)
      = rowBytes c pre + (img.width * c + rowBytes c post) := by
    rw [rowBytes_append]
    rfl
  have hckbound : col * c + k < img.width * c := by
    calc col * c + k < col * c + c := by omega
      _ = (col + 1) * c := by rw [Nat.add_mul, Nat.one_mul]
      _ ≤ img.width * c := mul_le_mul_right' (by omega) c
  have hjlt : rowBytes c pre + (col * c + k) < rowBytes c (pre ++ img :: post) := by
    rw [hsum]
    omega
  rw [hstackData_eval (pre ++ img :: post) c h row _ hrow hjlt]
  rw [rowVal_pre c row pre img post col k hcol hk]
  show _ = img.data ((row * img.width + col) * img.channels + k)
  rw [himg.2]
  congr 1
  ring

/-- Decomposing a linear offset below `W * H * ch` into `(row, col,
channel)` coordinates. -/
lemma index_decomp (W H ch idx : ℕ) (hidx : idx < W * H * ch) :
    ∃ r cc k, r < H ∧ cc < W ∧ k < ch ∧ idx = (r * W + cc) * ch + k := by
  have hch : 0 < ch := by
    rcases Nat.eq_zero_or_pos ch with h | h
    · subst h; rw [Nat.mul_zero] at hidx; exact absurd hidx (Nat.not_lt_zero idx)
    · exact h
  have hq : idx / ch < W * H := by
    rw [Nat.div_lt_iff_lt_mul hch]
    exact hidx
  have hW : 0 < W := by
    rcases Nat.eq_zero_or_pos W with h | h
    · subst h; rw [Nat.zero_mul] at hq; exact absurd hq (Nat.not_lt_zero _)
    · exact h
  refine ⟨idx / ch / W, idx / ch % W, idx % ch, ?_, Nat.mod_lt _ hW, Nat.mod_lt _ hch, ?_⟩
  · rw [Nat.div_lt_iff_lt_mul hW]
    calc idx / ch < W * H := hq
      _ = H * W := Nat.mul_comm _ _
  · have h1 : idx / ch / W * W + idx / ch % W = idx / ch := by
      rw [Nat.mul_comm (idx / ch / W) W]
      exact Nat.div_add_mod (idx / ch) W
    rw [h1, Nat.mul_comm (idx / ch) ch]
    exact (Nat.div_add_mod idx ch).symm

/-- Double transpose restores every meaningful component. -/
lemma transpose_transpose_data (img : LinearImage) (idx : ℕ)
    (hidx : idx < img.width * img.height * img.channels) :
    (transpose (transpose img)).data idx = img.data idx := by
  obtain ⟨r, cc, k, hr, hcc, hk, rfl⟩ :=
    index_decomp img.width img.height img.channels idx hidx
  show (transpose (transpose img)).pixelAt r cc k = img.pixelAt r cc k
  rw [transpose_pixelAt (transpose img) cc r k hcc hr hk,
      transpose_pixelAt img r cc k hr hcc hk]

/-- The row loop of `cropRegion` (ImageOps.cpp:163-167): each iteration
copies `width * channels` components, advances the destination cursor by
`width * channels` and the source cursor by `image.width * channels`. -/
def cropFold (wch sstep s0 : ℕ) (src : ℕ → ℚ) (N : ℕ) : ℕ × ℕ × (ℕ → ℚ) :=
  (List.range N).foldl
    (fun st _row => (st.1 + wch, st.2.1 + sstep, copyLoop st.2.2 st.1 src st.2.1 wch))
    (0, s0, fun _ => (0 : ℚ))

/-- `cropRegion` (ImageOps.cpp:155-169): no bound validation — the result
width and height are the `uint32_t` differences `right - left` and
`bottom - top`, i.e. `(2 ^ 32 + right - left) % 2 ^ 32` for operands below
`2 ^ 32`; the source pointer starts at `image.get(left, top)`, offset
`(top * width + left) * channels` by the spec's layout (§3). -/
def cropRegion (image : LinearImage) (left top right bottom : ℕ) : LinearImage :=
  let width := (2 ^ 32 + right - left) % 2 ^ 32
  let height := (2 ^ 32 + bottom - top) % 2 ^ 32
  let channels := image.channels
  ⟨width, height, channels,
    (cropFold (width * channels) (image.width * channels)
      ((top * image.width + left) * channels) image.data height).2.2⟩

lemma cropFold_succ (wch sstep s0 : ℕ) (src : ℕ → ℚ) (N : ℕ) :
    cropFold wch sstep s0 src (N + 1)
      = ((cropFold wch sstep s0 src N).1 + wch,
         (cropFold wch sstep s0 src N).2.1 + sstep,
         copyLoop (cropFold wch sstep s0 src N).2.2 (cropFold wch sstep s0 src N).1 src
           (cropFold wch sstep s0 src N).2.1 wch) := by
  unfold cropFold
  rw [List.range_succ, List.foldl_append, List.foldl_cons, List.foldl_nil]

lemma cropFold_spec (wch sstep s0 : ℕ) (src : ℕ → ℚ) :
    ∀ N : ℕ, (cropFold wch sstep s0 src N).1 = N * wch
      ∧ (cropFold wch sstep s0 src N).2.1 = s0 + N * sstep
      ∧ ∀ r j, r < N → j < wch →
          (cropFold wch sstep s0 src N).2.2 (r * wch + j) = src (s0 + r * sstep + j) := by
  intro N
  induction N with
  | zero =>
    refine ⟨by simp [cropFold], by simp [cropFold], ?_⟩
    intro r j hr _
    exact absurd hr (Nat.not_lt_zero r)
  | succ n ih =>
    obtain ⟨ih1, ih2, ih3⟩ := ih
    rw [cropFold_succ]
    refine ⟨?_, ?_, ?_⟩
    · show (cropFold wch sstep s0 src n).1 + wch = (n + 1) * wch
      rw [ih1, Nat.add_mul, Nat.one_mul]
    · show (cropFold wch sstep s0 src n).2.1 + sstep = s0 + (n + 1) * sstep
      rw [ih2, Nat.add_mul, Nat.one_mul, Nat.add_assoc]
    · intro r j hr hj
      show copyLoop (cropFold wch sstep s0 src n).2.2 (cropFold wch sstep s0 src n).1 src
          (cropFold wch sstep s0 src n).2.1 wch (r * wch + j) = src (s0 + r * sstep + j)
      rw [ih1, ih2]
      rcases Nat.lt_succ_iff_lt_or_eq.mp hr with hrn | hrn
      · have hb : (r + 1) * wch ≤ n * wch := mul_le_mul_right' (by omega) _
        rw [Nat.add_mul, Nat.one_mul] at hb
        rw [copyLoop_eval_out _ _ _ _ wch _ (Or.inl (by omega))]
        exact ih3 r j hrn hj
      · subst hrn
        rw [copyLoop_eval_in _ _ _ _ wch j hj]

/-- The plane checks of `combineChannels` (ImageOps.cpp:111-116). -/
def checkPlanes : List LinearImage → ℕ → ℕ → Except String Unit
  | [], _, _ => .ok ()
  | plane :: rest, width, height =>
    if plane.width ≠ width then .error "Planes must all have same width."
    else if plane.height ≠ height then .error "Planes must all have same height."
    else if plane.channels ≠ 1 then .error "Planes must be single channel."
    else checkPlanes rest width height

/-- The interleaving loop of `combineChannels` (ImageOps.cpp:118-127):
`dst[dindex++] = img[c].get()[sindex]` round-robin over the planes with
one shared source index per round; since every round advances `dindex` by
`count`, the while loop performs `width * height` rounds. -/
def combineData (l : List LinearImage) (width height : ℕ) : ℕ → ℚ :=
  ((List.range (width * height)).foldl
      (fun st sindex =>
        l.foldl (fun (st : ℕ × (ℕ → ℚ)) plane =>
            (st.1 + 1, Function.update st.2 st.1 (plane.data sindex))) st)
      (0, fun _ => (0 : ℚ))).2

/-- `combineChannels` (ImageOps.cpp:107-129). -/
def combineChannels : List LinearImage → Except String LinearImage
  | [] => .error "Must supply one or more image planes for combining."
  | img0 :: rest =>
    match checkPlanes (img0 :: rest) img0.width img0.height with
    | .error e => .error e
    | .ok _ => .ok ⟨img0.width, img0.height, (img0 :: rest).length,
        combineData (img0 :: rest) img0.width img0.height⟩

/-- Value of the `j`-th plane of `l` at shared source offset `sindex`. -/
def planesVal (sindex : ℕ) : List LinearImage → ℕ → ℚ
  | [], _ => 0
  | plane :: rest, j => if j = 0 then plane.data sindex else planesVal sindex rest (j - 1)

lemma combineRow_fst (sindex : ℕ) :
    ∀ (l : List LinearImage) (st : ℕ × (ℕ → ℚ)),
      (l.foldl (fun (st : ℕ × (ℕ → ℚ)) plane =>
          (st.1 + 1, Function.update st.2 st.1 (plane.data sindex))) st).1
        = st.1 + l.length := by
  intro l
  induction l with
  | nil => intro st; simp
  | cons p rest ih =>
    intro st
    rw [List.foldl_cons, ih]
    show st.1 + 1 + rest.length = st.1 + (rest.length + 1)
    omega

lemma combineRow_snd (sindex : ℕ) :
    ∀ (l : List LinearImage) (st : ℕ × (ℕ → ℚ)) (k : ℕ),
      (l.foldl (fun (st : ℕ × (ℕ → ℚ)) plane =>
          (st.1 + 1, Function.update st.2 st.1 (plane.data sindex))) st).2 k
        = if st.1 ≤ k ∧ k < st.1 + l.length
          then planesVal sindex l (k - st.1) else st.2 k := by
  intro l
  induction l with
  | nil =>
    intro st k
    show st.2 k = if st.1 ≤ k ∧ k < st.1 + List.length [] then _ else st.2 k
    rw [if_neg (by show ¬(st.1 ≤ k ∧ k < st.1 + 0); omega)]
  | cons p rest ih =>
    intro st k
    rw [List.foldl_cons, ih]
    show (if st.1 + 1 ≤ k ∧ k < st.1 + 1 + rest.length
        then planesVal sindex rest (k - (st.1 + 1))
        else Function.update st.2 st.1 (p.data sindex) k)
      = if st.1 ≤ k ∧ k < st.1 + (rest.length + 1)
        then planesVal sindex (p :: rest) (k - st.1) else st.2 k
    by_cases h1 : st.1 + 1 ≤ k ∧ k < st.1 + 1 + rest.length
    · rw [if_pos h1, if_pos (by omega)]
      have hunf : planesVal sindex (p :: rest) (k - st.1)
          = if k - st.1 = 0 then p.data sindex
            else planesVal sindex rest (k - st.1 - 1) := rfl
      rw [hunf, if_neg (by omega)]
      rw [show k - (st.1 + 1) = k - st.1 - 1 from by omega]
    · rw [if_neg h1]
      by_cases h2 : k = st.1
      · rw [h2, Function.update_same, if_pos (by omega)]
        have hunf : planesVal sindex (p :: rest) (st.1 - st.1)
            = if st.1 - st.1 = 0 then p.data sindex
              else planesVal sindex rest (st.1 - st.1 - 1) := rfl
        rw [hunf, if_pos (by omega)]
      · rw [Function.update_noteq h2, if_neg (by omega)]

lemma combineFold_fst (l : List LinearImage) :
    ∀ (L : List ℕ) (st : ℕ × (ℕ → ℚ)),
      (L.foldl (fun st sindex => l.foldl (fun (st : ℕ × (ℕ → ℚ)) plane =>
          (st.1 + 1, Function.update st.2 st.1 (plane.data sindex))) st) st).1
        = st.1 + L.length * l.length := by
  intro L
  induction L with
  | nil => intro st; simp
  | cons s L ih =>
    intro st
    rw [List.foldl_cons, ih, combineRow_fst]
    show st.1 + l.length + L.length * l.length = st.1 + (L.length + 1) * l.length
    rw [Nat.add_mul, Nat.one_mul]
    omega

lemma combineFold_eval (l : List LinearImage) :
    ∀ N sindex j : ℕ, sindex < N → j < l.length →
      ((List.range N).foldl
          (fun st sindex =>
            l.foldl (fun (st : ℕ × (ℕ → ℚ)) plane =>
                (st.1 + 1, Function.update st.2 st.1 (plane.data sindex))) st)
          (0, fun _ => (0 : ℚ))).2 (sindex * l.length + j) = planesVal sindex l j := by
  intro N
  induction N with
  | zero => intro sindex j hs _; exact absurd hs (Nat.not_lt_zero sindex)
  | succ n ih =>
    intro sindex j hs hj
    rw [List.range_succ, List.foldl_append, List.foldl_cons, List.foldl_nil]
    have hS1 : ((List.range n).foldl
        (fun st sindex =>
          l.foldl (fun (st : ℕ × (ℕ → ℚ)) plane =>
              (st.1 + 1, Function.update st.2 st.1 (plane.data sindex))) st)
        (0, fun _ => (0 : ℚ))).1 = n * l.length := by
      rw [combineFold_fst]
      simp
    rw [combineRow_snd, hS1]
    rcases Nat.lt_succ_iff_lt_or_eq.mp hs with hsn | hsn
    · rw [if_neg (by
        intro hcc
        have hb : (sindex + 1) * l.length ≤ n * l.length :=
          mul_le_mul_right' (by omega) _
        rw [Nat.add_mul, Nat.one_mul] at hb
        omega)]
      exact ih sindex j hsn hj
    · subst hsn
      rw [if_pos (by omega)]
      congr 1
      omega

/-- Reading `planesVal` at the position of a designated plane. -/
lemma planesVal_pre (sindex : ℕ) :
    ∀ (pre : List LinearImage) (plane : LinearImage) (post : List LinearImage),
      planesVal sindex (pre ++ plane :: post) pre.length = plane.data sindex := by
  intro pre
  induction pre with
  | nil =>
    intro plane post
    show (if (0 : ℕ) = 0 then plane.data sindex else _) = plane.data sindex
    rw [if_pos rfl]
  | cons q pre ih =>
    intro plane post
    show (if pre.length + 1 = 0 then q.data sindex
        else planesVal sindex (pre ++ plane :: post) (pre.length + 1 - 1))
      = plane.data sindex
    rw [if_neg (by omega)]
    show planesVal sindex (pre ++ plane :: post) pre.length = _
    exact ih plane post

/-- `vectorsToColors` (ImageOps.cpp:29-39): requires exactly 3 channels,
then writes, for each pixel `n`, the three components
`0.5 * (src[3n + c] + 1)` (the `float3` statement
`dst[n] = 0.5f * (src[n] + float3(1))`). -/
def vectorsToColors (image : LinearImage) : Except String LinearImage :=
  if image.channels ≠ 3 then .error "Must be a 3-channel image."
  else .ok ⟨image.width, image.height, 3,
    (List.range (image.width * image.height)).foldl
      (fun tgt n =>
        copyLoop tgt (3 * n) (fun m => (1 / 2 : ℚ) * (image.data m + 1)) (3 * n) 3)
      (fun _ => (0 : ℚ))⟩

lemma vectorsToColors_data (image : LinearImage) (n m : ℕ)
    (hn : n < image.width * image.height) (hm : m < 3) :
    ((List.range (image.width * image.height)).foldl
        (fun tgt n =>
          copyLoop tgt (3 * n) (fun m => (1 / 2 : ℚ) * (image.data m + 1)) (3 * n) 3)
        (fun _ => (0 : ℚ))) (3 * n + m)
      = (1 / 2 : ℚ) * (image.data (3 * n + m) + 1) := by
  exact foldl_copyLoop_eval (fun m => (1 / 2 : ℚ) * (image.data m + 1))
    (fun n => 3 * n) (fun n => 3 * n) 3 (List.range (image.width * image.height))
    (fun _ => (0 : ℚ)) n m (List.mem_range.mpr hn) hm
    (by
      intro n' _ hne
      show 3 * n' + 3 ≤ 3 * n + m ∨ 3 * n + m < 3 * n'
      omega)

/-- `std::lexicographical_compare` over two component lists with an
arbitrary boolean comparator — the exact algorithm: at each position test
`comp a b`, then `comp b a`, advancing only when both fail; a range
exhausted first decides the result. -/
def lexCompare (comp : ℚ → ℚ → Bool) : List ℚ → List ℚ → Bool
  | [], [] => false
  | [], _ :: _ => true
  | _ :: _, [] => false
  | a :: as, b :: bs =>
    if comp a b then true
    else if comp b a then false
    else lexCompare comp as bs

/-- The first `width * height * channels` stored components of a buffer in
linear order (the array reachable from the source's `get()` pointer). -/
def dataList (img : LinearImage) : List ℚ :=
  (List.range (img.width * img.height * img.channels)).map img.data

/-- The comparator lambda of `compare` (ImageOps.cpp:181):
`x >= y - epsilon && x <= y + epsilon` — a *symmetric* within-epsilon test
passed where `std::lexicographical_compare` expects a strict ordering. -/
def withinEps (epsilon x y : ℚ) : Bool :=
  decide (y - epsilon ≤ x) && decide (x ≤ y + epsilon)

/-- `compare` (ImageOps.cpp:171-182): `-1` on any shape mismatch,
otherwise the int value of `std::lexicographical_compare` over the two
component arrays with the `withinEps` comparator. -/
def compare (a b : LinearImage) (epsilon : ℚ) : ℤ :=
  if b.width ≠ a.width ∨ b.height ≠ a.height ∨ b.channels ≠ a.channels then -1
  else if lexCompare (withinEps epsilon) (dataList a) (dataList b) then 1 else 0

lemma lexCompare_cons (comp : ℚ → ℚ → Bool) (a b : ℚ) (as bs : List ℚ) :
    lexCompare comp (a :: as) (b :: bs)
      = if comp a b then true else if comp b a then false else lexCompare comp as bs := rfl

lemma withinEps_true (epsilon x y : ℚ) :
    withinEps epsilon x y = true ↔ y - epsilon ≤ x ∧ x ≤ y + epsilon := by
  simp [withinEps]

lemma withinEps_false (epsilon x y : ℚ) :
    withinEps epsilon x y = false ↔ ¬(y - epsilon ≤ x ∧ x ≤ y + epsilon) := by
  rw [← Bool.not_eq_true, withinEps_true]

/-- The error taxonomy of the spec (§7). -/
inductive ErrKind where
  | emptyInput
  | inconsistentShape
  | invalidChannelCount
  | outOfRange
  | other
deriving DecidableEq

/-- Modelled from the spec: §7's classification of the reference's
diagnostic messages into the error taxonomy (`EmptyInputError`,
`InconsistentShapeError`, `InvalidChannelCountError`). -/
def errKind : String → ErrKind
  | "Must supply one or more images for stacking." => .emptyInput
  | "Must supply one or more image planes for combining." => .emptyInput
  | "Inconsistent heights." => .inconsistentShape
  | "Inconsistent channels." => .inconsistentShape
  | "Planes must all have same width." => .inconsistentShape
  | "Planes must all have same height." => .inconsistentShape
  | "Planes must be single channel." => .invalidChannelCount
  | "Must be a 3-channel image." => .invalidChannelCount
  | _ => .other

lemma sumHeights_append :
    ∀ l1 l2 : List LinearImage, sumHeights (l1 ++ l2) = sumHeights l1 + sumHeights l2 := by
  intro l1 l2
  induction l1 with
  | nil => simp [sumHeights]
  | cons img rest ih =>
    show img.height + sumHeights (rest ++ l2) = img.height + sumHeights rest + sumHeights l2
    rw [ih, Nat.add_assoc]

lemma sumWidths_map_transpose :
    ∀ l : List LinearImage, sumWidths (l.map transpose) = sumHeights l := by
  intro l
  induction l with
  | nil => rfl
  | cons img rest ih =>
    show (transpose img).width + sumWidths (rest.map transpose) = img.height + sumHeights rest
    rw [ih, transpose_width]

lemma checkPlanes_ok (w h : ℕ) :
    ∀ l : List LinearImage,
      (∀ p ∈ l, p.width = w ∧ p.height = h ∧ p.channels = 1) →
      checkPlanes l w h = Except.ok () := by
  intro l
  induction l with
  | nil => intro _; rfl
  | cons p rest ih =>
    intro hall
    obtain ⟨h1, h2, h3⟩ := hall p (List.mem_cons_self _ _)
    show (if p.width ≠ w then _ else _) = _
    rw [if_neg (by omega), if_neg (by omega), if_neg (by omega)]
    exact ih fun q hq => hall q (List.mem_cons_of_mem _ hq)

lemma checkPlanes_bad (w h : ℕ) :
    ∀ l : List LinearImage,
      (∃ p ∈ l, p.width ≠ w ∨ p.height ≠ h ∨ p.channels ≠ 1) →
      ∃ e, checkPlanes l w h = Except.error e ∧
        (errKind e = ErrKind.inconsistentShape ∨ errKind e = ErrKind.invalidChannelCount) := by
  intro l
  induction l with
  | nil => intro hex; obtain ⟨p, hp, _⟩ := hex; exact absurd hp (List.not_mem_nil p)
  | cons p rest ih =>
    intro hex
    have hunf : checkPlanes (p :: rest) w h
        = if p.width ≠ w then Except.error "Planes must all have same width."
          else if p.height ≠ h then Except.error "Planes must all have same height."
          else if p.channels ≠ 1 then Except.error "Planes must be single channel."
          else checkPlanes rest w h := rfl
    by_cases h1 : p.width = w
    · by_cases h2 : p.height = h
      · by_cases h3 : p.channels = 1
        · have hrest : ∃ q ∈ rest, q.width ≠ w ∨ q.height ≠ h ∨ q.channels ≠ 1 := by
            obtain ⟨q, hq, hbad⟩ := hex
            rcases List.mem_cons.mp hq with rfl | hq'
            · rcases hbad with hb | hb | hb
              · exact absurd h1 hb
              · exact absurd h2 hb
              · exact absurd h3 hb
            · exact ⟨q, hq', hbad⟩
          rw [hunf, if_neg (by omega), if_neg (by omega), if_neg (by omega)]
          exact ih hrest
        · refine ⟨"Planes must be single channel.", ?_, Or.inr rfl⟩
          rw [hunf, if_neg (by omega), if_neg (by omega), if_pos h3]
      · refine ⟨"Planes must all have same height.", ?_, Or.inl rfl⟩
        rw [hunf, if_neg (by omega), if_pos h2]
    · refine ⟨"Planes must all have same width.", ?_, Or.inl rfl⟩
      rw [hunf, if_pos h1]

/-- A concrete 2×2 single-channel buffer with components `0, 1, 2, 3` in
row-major order. -/
def exImg : LinearImage := ⟨2, 2, 1, fun i => (i : ℚ)⟩

/-- A concrete 1×1 single-channel buffer. -/
def exA : LinearImage := ⟨1, 1, 1, fun _ => 5⟩

/-- A concrete 1×1 3-channel buffer with all components 1. -/
def exVec : LinearImage := ⟨1, 1, 3, fun _ => 1⟩

/-- A concrete 3×1 single-channel buffer. -/
def exB : LinearImage := ⟨3, 1, 1, fun i => (i : ℚ) + 10⟩

/-- A 2×1 single-channel buffer holding `[0, 0]`. -/
def cmpA : LinearImage := ⟨2, 1, 1, fun _ => 0⟩

/-- A 2×1 single-channel buffer holding `[0, 100]`. -/
def cmpB : LinearImage := ⟨2, 1, 1, fun i => if i = 1 then 100 else 0⟩

/-- A 2×1 single-channel buffer holding `[100, 100]`. -/
def cmpC : LinearImage := ⟨2, 1, 1, fun _ => 100⟩

/-- Claim C1, settled against the code: `compare` does *not* return the
equal result exactly when all component pairs are within epsilon.  With
epsilon `1/2`: `compare cmpA cmpA` (all pairs within epsilon) and
`compare cmpA cmpB` (second pair differs by `100 > 1/2`) both return `1`,
while `compare cmpA cmpC` (no pair within epsilon) returns `0` — the scan
returns true as soon as *some* pair is within epsilon, so no return value
means "every pair within epsilon", contradicting the claimed equivalence
and, under the `0 = equal` reading intended by the (commented-out) test
`compare(limg, img) == 0`, also contradicting reflexivity. -/
theorem compare_claim_code_bug :
    compare cmpA cmpA (1 / 2) = 1 ∧
    compare cmpA cmpB (1 / 2) = 1 ∧
    compare cmpA cmpC (1 / 2) = 0 ∧
    cmpB.data 1 - cmpA.data 1 = 100 := by
  have hA : dataList cmpA = [0, 0] := rfl
  have hB : dataList cmpB = [0, 100] := rfl
  have hC : dataList cmpC = [100, 100] := rfl
  have h00 : withinEps (1 / 2) 0 0 = true := (withinEps_true _ _ _).mpr (by norm_num)
  have h0c : withinEps (1 / 2) 0 100 = false := (withinEps_false _ _ _).mpr (by norm_num)
  have hc0 : withinEps (1 / 2) 100 0 = false := (withinEps_false _ _ _).mpr (by norm_num)
  refine ⟨?_, ?_, ?_, ?_⟩
  · show (if cmpA.width ≠ cmpA.width ∨ cmpA.height ≠ cmpA.height ∨ cmpA.channels ≠ cmpA.channels
        then (-1 : ℤ)
        else if lexCompare (withinEps (1 / 2)) (dataList cmpA) (dataList cmpA) then 1 else 0) = 1
    rw [if_neg (by decide), hA]
    rw [lexCompare_cons, h00]
    simp
  · show (if cmpB.width ≠ cmpA.width ∨ cmpB.height ≠ cmpA.height ∨ cmpB.channels ≠ cmpA.channels
        then (-1 : ℤ)
        else if lexCompare (withinEps (1 / 2)) (dataList cmpA) (dataList cmpB) then 1 else 0) = 1
    rw [if_neg (by decide), hA, hB]
    rw [lexCompare_cons, h00]
    simp
  · show (if cmpC.width ≠ cmpA.width ∨ cmpC.height ≠ cmpA.height ∨ cmpC.channels ≠ cmpA.channels
        then (-1 : ℤ)
        else if lexCompare (withinEps (1 / 2)) (dataList cmpA) (dataList cmpC) then 1 else 0) = 0
    rw [if_neg (by decide), hA, hC]
    rw [lexCompare_cons, h0c, hc0]
    rw [lexCompare_cons, h0c, hc0]
    simp [lexCompare]
  · show (if (1 : ℕ) = 1 then (100 : ℚ) else 0) - 0 = 100
    norm_num

/-- Claim C4: `transpose` swaps width and height, keeps the channel count,
and output pixel `(row = j, col = i)` in channel `k` equals input pixel
`(row = i, col = j)` in channel `k`, for all valid `i`, `j`, `k`. -/
theorem transpose_claim (img : LinearImage) :
    (transpose img).width = img.height ∧ (transpose img).height = img.width ∧
    (transpose img).channels = img.channels ∧
    ∀ i j k : ℕ, i < img.height → j < img.width → k < img.channels →
      (transpose img).pixelAt j i k = img.pixelAt i j k :=
  ⟨rfl, rfl, rfl, fun i j k hi hj hk => transpose_pixelAt img i j k hi hj hk⟩

/-- Claim C4 witness at a concrete buffer and pixel. -/
theorem transpose_claim_witness :
    (transpose exImg).pixelAt 1 0 0 = exImg.pixelAt 0 1 0 :=
  (transpose_claim exImg).2.2.2 0 1 0 (by decide) (by decide) (by decide)

/-- Claim C5: `transpose (transpose img)` equals `img` exactly — same
width, height and channel count, and every stored component identical. -/
theorem transpose_involution_claim (img : LinearImage) :
    (transpose (transpose img)).width = img.width ∧
    (transpose (transpose img)).height = img.height ∧
    (transpose (transpose img)).channels = img.channels ∧
    ∀ idx : ℕ, idx < img.width * img.height * img.channels →
      (transpose (transpose img)).data idx = img.data idx :=
  ⟨rfl, rfl, rfl, fun idx hidx => transpose_transpose_data img idx hidx⟩

/-- Claim C5 witness at a concrete buffer and offset. -/
theorem transpose_involution_claim_witness :
    (transpose (transpose exImg)).data 2 = exImg.data 2 :=
  (transpose_involution_claim exImg).2.2.2 2 (by decide)

/-- Claim C2: for `n ≥ 1` buffers of identical height `h` and channel
count `c`, `hstack` returns a buffer of height `h`, channels `c` and width
`Σ wᵢ`, in which the pixel at column `Σ_{i<k} wᵢ + col` of any row equals
input `k`'s pixel at column `col` of that row, in every channel — inputs
are placed left-to-right in sequence order. -/
theorem hstack_claim (img0 : LinearImage) (rest : List LinearImage) (h c : ℕ)
    (hall : ∀ img ∈ img0 :: rest, img.height = h ∧ img.channels = c) :
    ∃ out, hstack (img0 :: rest) = Except.ok out ∧
      out.height = h ∧ out.channels = c ∧ out.width = sumWidths (img0 :: rest) ∧
      ∀ pre img post, img0 :: rest = pre ++ img :: post →
        ∀ row col k : ℕ, row < h → col < img.width → k < c →
          out.pixelAt row (sumWidths pre + col) k = img.pixelAt row col k := by
  refine ⟨_, hstack_spec img0 rest h c hall, rfl, rfl, rfl, ?_⟩
  intro pre img post hsplit row col k hrow hcol hk
  show hstackData (img0 :: rest) c h
      ((row * sumWidths (img0 :: rest) + (sumWidths pre + col)) * c + k)
    = img.pixelAt row col k
  exact hstackData_pixel (img0 :: rest) c h hall pre img post hsplit row col k hrow hcol hk

/-- Claim C2 witness at a concrete instance. -/
theorem hstack_claim_witness :
    ∃ out, hstack [exA, exB] = Except.ok out ∧
      out.height = 1 ∧ out.channels = 1 ∧ out.width = sumWidths [exA, exB] := by
  obtain ⟨out, h1, h2, h3, h4, _⟩ := hstack_claim exA [exB] 1 1 (by decide)
  exact ⟨out, h1, h2, h3, h4⟩

/-- Claim C6: under in-range bounds `left < right ≤ width`,
`top < bottom ≤ height` (dimensions being `uint32_t` values), `cropRegion`
returns a `(right - left) × (bottom - top)` buffer with unchanged channel
count whose pixel `(row, col)` equals the source pixel
`(row + top, col + left)` in every channel. -/
theorem cropRegion_claim (img : LinearImage) (left top right bottom : ℕ)
    (hW : img.width < 2 ^ 32) (hH : img.height < 2 ^ 32)
    (h1 : left < right) (h2 : right ≤ img.width)
    (h3 : top < bottom) (h4 : bottom ≤ img.height) :
    (cropRegion img left top right bottom).width = right - left ∧
    (cropRegion img left top right bottom).height = bottom - top ∧
    (cropRegion img left top right bottom).channels = img.channels ∧
    ∀ row col k : ℕ, row < bottom - top → col < right - left → k < img.channels →
      (cropRegion img left top right bottom).pixelAt row col k
        = img.pixelAt (row + top) (col + left) k := by
  have hwidth : (2 ^ 32 + right - left) % 2 ^ 32 = right - left := by omega
  have hheight : (2 ^ 32 + bottom - top) % 2 ^ 32 = bottom - top := by omega
  refine ⟨hwidth, hheight, rfl, ?_⟩
  intro row col k hrow hcol hk
  have hspec := (cropFold_spec ((2 ^ 32 + right - left) % 2 ^ 32 * img.channels)
    (img.width * img.channels) ((top * img.width + left) * img.channels) img.data
    ((2 ^ 32 + bottom - top) % 2 ^ 32)).2.2
  show (cropFold ((2 ^ 32 + right - left) % 2 ^ 32 * img.channels)
      (img.width * img.channels) ((top * img.width + left) * img.channels) img.data
      ((2 ^ 32 + bottom - top) % 2 ^ 32)).2.2
      ((row * ((2 ^ 32 + right - left) % 2 ^ 32) + col) * img.channels + k)
    = img.pixelAt (row + top) (col + left) k
  rw [hwidth, hheight] at hspec ⊢
  rw [show (row * (right - left) + col) * img.channels + k
      = row * ((right - left) * img.channels) + (col * img.channels + k) from by ring]
  have hjb : col * img.channels + k < (right - left) * img.channels := by
    calc col * img.channels + k < col * img.channels + img.channels := by omega
      _ = (col + 1) * img.channels := by rw [Nat.add_mul, Nat.one_mul]
      _ ≤ (right - left) * img.channels := mul_le_mul_right' (by omega) _
  rw [hspec row (col * img.channels + k) hrow hjb]
  show img.data ((top * img.width + left) * img.channels
      + row * (img.width * img.channels) + (col * img.channels + k))
    = img.data (((row + top) * img.width + (col + left)) * img.channels + k)
  congr 1
  ring

/-- Claim C6 witness at a concrete buffer and crop. -/
theorem cropRegion_claim_witness :
    (cropRegion exImg 1 0 2 1).pixelAt 0 0 0 = exImg.pixelAt 0 1 0 :=
  (cropRegion_claim exImg 1 0 2 1 (by decide) (by decide) (by decide) (by decide)
    (by decide) (by decide)).2.2.2 0 0 0 (by decide) (by decide) (by decide)

/-- Claim C10: `cropRegion` validates nothing — for every call with
`uint32_t` arguments, the recorded width is `(right - left) mod 2 ^ 32`
and the recorded height is `(bottom - top) mod 2 ^ 32`, computed by 32-bit
unsigned subtraction, including when `right ≤ left` or `bottom ≤ top`
(the dimension wraps around; no failure path exists). -/
theorem cropRegion_wrap_claim (img : LinearImage) (left top right bottom : ℕ)
    (hl : left < 2 ^ 32) (ht : top < 2 ^ 32) (hr : right < 2 ^ 32) (hb : bottom < 2 ^ 32) :
    ((cropRegion img left top right bottom).width : ℤ)
        = ((right : ℤ) - (left : ℤ)) % 2 ^ 32 ∧
    ((cropRegion img left top right bottom).height : ℤ)
        = ((bottom : ℤ) - (top : ℤ)) % 2 ^ 32 := by
  constructor
  · show (((2 ^ 32 + right - left) % 2 ^ 32 : ℕ) : ℤ) = ((right : ℤ) - (left : ℤ)) % 2 ^ 32
    omega
  · show (((2 ^ 32 + bottom - top) % 2 ^ 32 : ℕ) : ℤ) = ((bottom : ℤ) - (top : ℤ)) % 2 ^ 32
    omega

/-- Claim C10 witness: a degenerate crop with `right < left` wraps. -/
theorem cropRegion_wrap_claim_witness :
    ((cropRegion exImg 1 0 0 1).width : ℤ) = ((0 : ℤ) - (1 : ℤ)) % 2 ^ 32 :=
  (cropRegion_wrap_claim exImg 1 0 0 1 (by norm_num) (by norm_num) (by norm_num)
    (by norm_num)).1

/-- Claim C8: `vectorsToColors` fails with the channel-count diagnostic
for every input whose channel count is not 3; on a 3-channel input it
returns a same-size 3-channel buffer in which every component `v` becomes
`0.5 * (v + 1)`; components in `[-1, 1]` land in `[0, 1]`, with `-1 ↦ 0`,
`0 ↦ 0.5` and `1 ↦ 1` exactly. -/
theorem vectorsToColors_claim (img : LinearImage) :
    (img.channels ≠ 3 →
      vectorsToColors img = Except.error "Must be a 3-channel image." ∧
      errKind "Must be a 3-channel image." = ErrKind.invalidChannelCount) ∧
    (img.channels = 3 →
      ∃ out, vectorsToColors img = Except.ok out ∧
        out.width = img.width ∧ out.height = img.height ∧ out.channels = 3 ∧
        (∀ idx : ℕ, idx < img.width * img.height * 3 →
          out.data idx = (1 / 2 : ℚ) * (img.data idx + 1)) ∧
        (∀ idx : ℕ, idx < img.width * img.height * 3 →
          (-1 ≤ img.data idx ∧ img.data idx ≤ 1 →
            0 ≤ out.data idx ∧ out.data idx ≤ 1) ∧
          (img.data idx = -1 → out.data idx = 0) ∧
          (img.data idx = 0 → out.data idx = 1 / 2) ∧
          (img.data idx = 1 → out.data idx = 1))) := by
  constructor
  · intro hch
    refine ⟨?_, rfl⟩
    show (if img.channels ≠ 3 then _ else _) = _
    rw [if_pos hch]
  · intro hch
    have hdata : ∀ idx : ℕ, idx < img.width * img.height * 3 →
        ((List.range (img.width * img.height)).foldl
            (fun tgt n =>
              copyLoop tgt (3 * n) (fun m => (1 / 2 : ℚ) * (img.data m + 1)) (3 * n) 3)
            (fun _ => (0 : ℚ))) idx
          = (1 / 2 : ℚ) * (img.data idx + 1) := by
      intro idx hidx
      obtain ⟨n, m, hn, hm, rfl⟩ : ∃ n m, n < img.width * img.height ∧ m < 3 ∧ idx = 3 * n + m := by
        refine ⟨idx / 3, idx % 3, ?_, Nat.mod_lt _ (by omega), (Nat.div_add_mod idx 3).symm⟩
        rw [Nat.div_lt_iff_lt_mul (by omega : (0 : ℕ) < 3)]
        exact hidx
      exact vectorsToColors_data img n m hn hm
    refine ⟨⟨img.width, img.height, 3,
      (List.range (img.width * img.height)).foldl
        (fun tgt n =>
          copyLoop tgt (3 * n) (fun m => (1 / 2 : ℚ) * (img.data m + 1)) (3 * n) 3)
        (fun _ => (0 : ℚ))⟩, ?_, rfl, rfl, rfl, hdata, ?_⟩
    · show (if img.channels ≠ 3 then _ else _) = _
      rw [if_neg (by omega)]
    · intro idx hidx
      have hf := hdata idx hidx
      have hgen : ∀ q r : ℚ, r = (1 / 2 : ℚ) * (q + 1) →
          ((-1 ≤ q ∧ q ≤ 1 → 0 ≤ r ∧ r ≤ 1) ∧ (q = -1 → r = 0) ∧
            (q = 0 → r = 1 / 2) ∧ (q = 1 → r = 1)) := by
        intro q r hqr
        subst hqr
        refine ⟨fun hb => ⟨by linarith, by linarith⟩, fun hv => by rw [hv]; norm_num,
          fun hv => by rw [hv]; norm_num, fun hv => by rw [hv]; norm_num⟩
      exact hgen (img.data idx) _ hf

/-- Claim C8 witness at a concrete 3-channel buffer. -/
theorem vectorsToColors_claim_witness :
    ∃ out, vectorsToColors exVec = Except.ok out := by
  obtain ⟨out, h1, _⟩ := (vectorsToColors_claim exVec).2 (by decide)
  exact ⟨out, h1⟩

/-- Claim C7: for `n ≥ 1` planes, `combineChannels` succeeds exactly when
every plane is single-channel and matches the first plane's width and
height, producing a `width × height` buffer with `n` channels in which
output channel `k` at flattened pixel `p` equals plane `k`'s component at
`p` (sequence order becomes channel order); a violating plane makes it
fail with a shape / channel-count diagnostic and no buffer. -/
theorem combineChannels_claim (img0 : LinearImage) (rest : List LinearImage) :
    ((∀ plane ∈ img0 :: rest,
        plane.width = img0.width ∧ plane.height = img0.height ∧ plane.channels = 1) →
      ∃ out, combineChannels (img0 :: rest) = Except.ok out ∧
        out.width = img0.width ∧ out.height = img0.height ∧
        out.channels = (img0 :: rest).length ∧
        ∀ pre plane post, img0 :: rest = pre ++ plane :: post →
          ∀ p : ℕ, p < img0.width * img0.height →
            out.data (p * (img0 :: rest).length + pre.length) = plane.data p) ∧
    ((∃ plane ∈ img0 :: rest,
        plane.width ≠ img0.width ∨ plane.height ≠ img0.height ∨ plane.channels ≠ 1) →
      ∃ e, combineChannels (img0 :: rest) = Except.error e ∧
        (errKind e = ErrKind.inconsistentShape ∨ errKind e = ErrKind.invalidChannelCount)) := by
  constructor
  · intro hall
    have hchk : checkPlanes (img0 :: rest) img0.width img0.height = Except.ok () :=
      checkPlanes_ok img0.width img0.height (img0 :: rest) hall
    refine ⟨⟨img0.width, img0.height, (img0 :: rest).length,
      combineData (img0 :: rest) img0.width img0.height⟩, ?_, rfl, rfl, rfl, ?_⟩
    · show (match checkPlanes (img0 :: rest) img0.width img0.height with
        | .error e => Except.error e
        | .ok _ => Except.ok (⟨img0.width, img0.height, (img0 :: rest).length,
            combineData (img0 :: rest) img0.width img0.height⟩ : LinearImage)) = _
      rw [hchk]
    · intro pre plane post hsplit p hp
      have hlen : pre.length < (img0 :: rest).length := by
        rw [hsplit, List.length_append]
        show pre.length < pre.length + (post.length + 1)
        omega
      show combineData (img0 :: rest) img0.width img0.height
          (p * (img0 :: rest).length + pre.length) = plane.data p
      rw [show combineData (img0 :: rest) img0.width img0.height
            (p * (img0 :: rest).length + pre.length)
          = planesVal p (img0 :: rest) pre.length from
        combineFold_eval (img0 :: rest) (img0.width * img0.height) p pre.length hp hlen]
      rw [hsplit]
      exact planesVal_pre p pre plane post
  · intro hex
    obtain ⟨e, he, hkind⟩ := checkPlanes_bad img0.width img0.height (img0 :: rest) hex
    refine ⟨e, ?_, hkind⟩
    show (match checkPlanes (img0 :: rest) img0.width img0.height with
      | .error e => Except.error e
      | .ok _ => Except.ok (⟨img0.width, img0.height, (img0 :: rest).length,
          combineData (img0 :: rest) img0.width img0.height⟩ : LinearImage)) = Except.error e
    rw [he]

/-- Claim C7 witness at a concrete plane sequence. -/
theorem combineChannels_claim_witness :
    ∃ out, combineChannels [cmpA, cmpC] = Except.ok out := by
  obtain ⟨out, h1, _⟩ := (combineChannels_claim cmpA [cmpC]).1 (by decide)
  exact ⟨out, h1⟩

/-- Claim C9: `hstack` fails exactly when the sequence is empty (the
empty-input diagnostic) or some input's height or channel count differs
from the first input's (a shape diagnostic); with a non-empty agreeing
sequence it succeeds and returns a buffer — and `vstack` mirrors this with
width in place of height.  (Buffers obey the data-model invariant of
positive dimensions.) -/
theorem stack_errors_claim (img0 : LinearImage) (rest : List LinearImage)
    (hv : ∀ img ∈ img0 :: rest, 0 < img.width ∧ 0 < img.height ∧ 0 < img.channels) :
    (hstack ([] : List LinearImage)
        = Except.error "Must supply one or more images for stacking." ∧
      vstack ([] : List LinearImage)
        = Except.error "Must supply one or more images for stacking." ∧
      errKind "Must supply one or more images for stacking." = ErrKind.emptyInput) ∧
    ((∀ img ∈ rest, img.height = img0.height ∧ img.channels = img0.channels) →
      ∃ out, hstack (img0 :: rest) = Except.ok out) ∧
    ((∃ img ∈ rest, img.height ≠ img0.height ∨ img.channels ≠ img0.channels) →
      ∃ e, hstack (img0 :: rest) = Except.error e
        ∧ errKind e = ErrKind.inconsistentShape) ∧
    ((∀ img ∈ rest, img.width = img0.width ∧ img.channels = img0.channels) →
      ∃ out, vstack (img0 :: rest) = Except.ok out) ∧
    ((∃ img ∈ rest, img.width ≠ img0.width ∨ img.channels ≠ img0.channels) →
      ∃ e, vstack (img0 :: rest) = Except.error e
        ∧ errKind e = ErrKind.inconsistentShape) := by
  have h0 := hv img0 (List.mem_cons_self _ _)
  refine ⟨⟨rfl, rfl, rfl⟩, ?_, ?_, ?_, ?_⟩
  · intro hagree
    refine ⟨_, hstack_spec img0 rest img0.height img0.channels ?_⟩
    intro img him
    rcases List.mem_cons.mp him with rfl | him'
    · exact ⟨rfl, rfl⟩
    · exact hagree img him'
  · intro hex
    have hscan := hstackScan_mismatch img0.height img0.channels (by omega) (by omega)
      rest (0 + img0.width) hex
    have hunf : hstackScan (img0 :: rest) 0 0 0
        = hstackScan rest (0 + img0.width) img0.height img0.channels := by
      show (if (0 : ℕ) = 0 ∨ (0 : ℕ) = img0.height then _ else _) = _
      rw [if_pos (Or.inl rfl), if_pos (Or.inl rfl)]
    rcases hscan with hsc | hsc
    · refine ⟨"Inconsistent heights.", ?_, rfl⟩
      show (if (img0 :: rest).length > 0 then _ else _) = _
      rw [if_pos (by simp), hunf, hsc]
    · refine ⟨"Inconsistent channels.", ?_, rfl⟩
      show (if (img0 :: rest).length > 0 then _ else _) = _
      rw [if_pos (by simp), hunf, hsc]
  · intro hagree
    have hallT : ∀ i ∈ transpose img0 :: rest.map transpose,
        i.height = img0.width ∧ i.channels = img0.channels := by
      intro i hi
      rcases List.mem_cons.mp hi with rfl | hi'
      · exact ⟨rfl, rfl⟩
      · obtain ⟨img, himg, rfl⟩ := List.mem_map.mp hi'
        obtain ⟨hw1, hw2⟩ := hagree img himg
        exact ⟨hw1, hw2⟩
    refine ⟨transpose ⟨sumWidths (transpose img0 :: rest.map transpose), img0.width,
      img0.channels, hstackData (transpose img0 :: rest.map transpose) img0.channels
        img0.width⟩, ?_⟩
    show (if (img0 :: rest).length > 0 then _ else _) = _
    rw [if_pos (by simp)]
    show (match hstack ((img0 :: rest).map transpose) with
      | .error e => Except.error e
      | .ok result => Except.ok (transpose result)) = _
    rw [show (img0 :: rest).map transpose = transpose img0 :: rest.map transpose from rfl,
      hstack_spec (transpose img0) (rest.map transpose) img0.width img0.channels hallT]
  · intro hex
    obtain ⟨img, him, hbad⟩ := hex
    have hexT : ∃ i ∈ rest.map transpose,
        i.height ≠ img0.width ∨ i.channels ≠ img0.channels :=
      ⟨transpose img, List.mem_map.mpr ⟨img, him, rfl⟩, hbad⟩
    have hscan := hstackScan_mismatch img0.width img0.channels (by omega) (by omega)
      (rest.map transpose) (0 + img0.height) hexT
    have hunf : hstackScan (transpose img0 :: rest.map transpose) 0 0 0
        = hstackScan (rest.map transpose) (0 + img0.height) img0.width img0.channels := by
      show (if (0 : ℕ) = 0 ∨ (0 : ℕ) = (transpose img0).height then
          if (0 : ℕ) = 0 ∨ (0 : ℕ) = (transpose img0).channels then
            hstackScan (rest.map transpose) (0 + (transpose img0).width)
              (transpose img0).height (transpose img0).channels
          else Except.error "Inconsistent channels."
        else Except.error "Inconsistent heights.")
        = hstackScan (rest.map transpose) (0 + img0.height) img0.width img0.channels
      rw [if_pos (Or.inl rfl), if_pos (Or.inl rfl)]
      rfl
    have hmain : ∀ msg : String,
        hstackScan (rest.map transpose) (0 + img0.height) img0.width img0.channels
          = Except.error msg →
        vstack (img0 :: rest) = Except.error msg := by
      intro msg hsc
      show (if (img0 :: rest).length > 0 then _ else _) = _
      rw [if_pos (by simp)]
      show (match hstack ((img0 :: rest).map transpose) with
        | .error e => Except.error e
        | .ok result => Except.ok (transpose result)) = Except.error msg
      have hh : hstack ((img0 :: rest).map transpose) = Except.error msg := by
        show (if ((img0 :: rest).map transpose).length > 0 then _ else _) = _
        rw [if_pos (by simp)]
        rw [show (img0 :: rest).map transpose = transpose img0 :: rest.map transpose from rfl,
          hunf, hsc]
      rw [hh]
    rcases hscan with hsc | hsc
    · exact ⟨"Inconsistent heights.", hmain _ hsc, rfl⟩
    · exact ⟨"Inconsistent channels.", hmain _ hsc, rfl⟩

/-- Claim C9 witness: a singleton sequence stacks successfully. -/
theorem stack_errors_claim_witness :
    ∃ out, hstack [exA] = Except.ok out := by
  obtain ⟨_, hsucc, _, _, _⟩ := stack_errors_claim exA [] (by decide)
  exact hsucc (by simp)

/-- Claim C3: for `n ≥ 1` buffers of identical width `w` and channel count
`c`, `vstack` returns a buffer of width `w`, channels `c` and height
`Σ hᵢ`, in which input `k` occupies the rows starting at `Σ_{i<k} hᵢ` with
its pixel values unchanged — inputs are placed top-to-bottom in sequence
order. -/
theorem vstack_claim (img0 : LinearImage) (rest : List LinearImage) (w c : ℕ)
    (hall : ∀ img ∈ img0 :: rest, img.width = w ∧ img.channels = c) :
    ∃ out, vstack (img0 :: rest) = Except.ok out ∧
      out.width = w ∧ out.channels = c ∧ out.height = sumHeights (img0 :: rest) ∧
      ∀ pre img post, img0 :: rest = pre ++ img :: post →
        ∀ row col k : ℕ, row < img.height → col < w → k < c →
          out.pixelAt (sumHeights pre + row) col k = img.pixelAt row col k := by
  have hallT : ∀ i ∈ transpose img0 :: rest.map transpose,
      i.height = w ∧ i.channels = c := by
    intro i hi
    rcases List.mem_cons.mp hi with rfl | hi'
    · obtain ⟨h1, h2⟩ := hall img0 (List.mem_cons_self _ _)
      exact ⟨h1, h2⟩
    · obtain ⟨img, himg, rfl⟩ := List.mem_map.mp hi'
      obtain ⟨h1, h2⟩ := hall img (List.mem_cons_of_mem _ himg)
      exact ⟨h1, h2⟩
  have hOk : vstack (img0 :: rest) = Except.ok (transpose
      ⟨sumWidths (transpose img0 :: rest.map transpose), w, c,
        hstackData (transpose img0 :: rest.map transpose) c w⟩) := by
    show (if (img0 :: rest).length > 0 then _ else _) = _
    rw [if_pos (by simp)]
    show (match hstack ((img0 :: rest).map transpose) with
      | .error e => Except.error e
      | .ok result => Except.ok (transpose result)) = _
    rw [show (img0 :: rest).map transpose = transpose img0 :: rest.map transpose from rfl,
      hstack_spec (transpose img0) (rest.map transpose) w c hallT]
  refine ⟨_, hOk, rfl, rfl, ?_, ?_⟩
  · show sumWidths (transpose img0 :: rest.map transpose) = sumHeights (img0 :: rest)
    exact sumWidths_map_transpose (img0 :: rest)
  · intro pre img post hsplit row col k hrow hcol hk
    obtain ⟨hiw, hic⟩ : img.width = w ∧ img.channels = c := by
      refine hall img ?_
      rw [hsplit]
      exact List.mem_append.mpr (Or.inr (List.mem_cons_self _ _))
    have hsplitT : transpose img0 :: rest.map transpose
        = (pre.map transpose) ++ (transpose img) :: (post.map transpose) := by
      show (img0 :: rest).map transpose = _
      rw [hsplit, List.map_append, List.map_cons]
    have hpreH : sumWidths (pre.map transpose) = sumHeights pre := sumWidths_map_transpose pre
    have hbound : sumHeights pre + row < sumWidths (transpose img0 :: rest.map transpose) := by
      show sumHeights pre + row < sumWidths ((img0 :: rest).map transpose)
      rw [sumWidths_map_transpose (img0 :: rest), hsplit, sumHeights_append]
      show sumHeights pre + row < sumHeights pre + (img.height + sumHeights post)
      omega
    rw [transpose_pixelAt ⟨sumWidths (transpose img0 :: rest.map transpose), w, c,
        hstackData (transpose img0 :: rest.map transpose) c w⟩ col (sumHeights pre + row) k
      hcol hbound hk]
    show hstackData (transpose img0 :: rest.map transpose) c w
        ((col * sumWidths (transpose img0 :: rest.map transpose)
          + (sumHeights pre + row)) * c + k) = img.pixelAt row col k
    rw [← hpreH]
    rw [hstackData_pixel (transpose img0 :: rest.map transpose) c w hallT
      (pre.map transpose) (transpose img) (post.map transpose) hsplitT
      col row k hcol hrow hk]
    exact transpose_pixelAt img row col k hrow (by rw [hiw]; exact hcol)
      (by rw [hic]; exact hk)

/-- Claim C3 witness at a concrete instance. -/
theorem vstack_claim_witness :
    ∃ out, vstack [exA] = Except.ok out ∧
      out.width = 1 ∧ out.channels = 1 ∧ out.height = sumHeights [exA] := by
  obtain ⟨out, h1, h2, h3, h4, _⟩ := vstack_claim exA [] 1 1 (by decide)
  exact ⟨out, h1, h2, h3, h4⟩

end image
